import Mathlib

/-!
Verification of the planar Laplace location-privacy mechanism
(`planar_laplace_mechanism.py`) against its specification.

The source is embedded shallowly over the exact reals: the ambient random
draws (`p = random.random()` and `theta = np.random.uniform(0, 2*pi)`) are
made explicit arguments, and a Python exception is an `Except.error`.
The only exception the source can actually raise in the noise path is the
`ZeroDivisionError` of `-1 / epsilon` at `epsilon = 0`.
-/

namespace PlanarLaplace

open Real

/-- The Python exceptions the embedded noise path can raise.  The source
defines no error handling of its own, so the only possible error is the
interpreter's division-by-zero exception. -/
inductive PyError where
  | zeroDivisionError
  deriving DecidableEq, Repr

open Classical in
/-- The Lambert W function on the real branch `k = -1`: for
`x ∈ [-1/e, 0)` it is the unique `w ≤ -1` with `w * exp w = x`
(junk value `0` outside the domain where such a `w` exists).  This models
`scipy.special.lambertw(x, k=-1)` exactly. -/
noncomputable def lambertWm1 (x : ℝ) : ℝ :=
  if h : ∃ w, w ≤ -1 ∧ w * Real.exp w = x then Classical.choose h else 0

/-- Model of `scipy.special.lambertw(x, k=-1, tol=1e-8)`: scipy returns a
complex value; on the real branch `k = -1` over `[-1/e, 0)` the exact
value is real, so the model has imaginary part `0`. -/
noncomputable def scipy_lambertw (x : ℝ) : ℂ := ((lambertWm1 x : ℝ) : ℂ)

/-- Line 12 of the source applied to an already-evaluated Lambert W value:
`r = -1 / epsilon * (z.real + 1)`.  The real part is taken unconditionally,
whatever the imaginary part of `z` is. -/
noncomputable def radius_from_lambert (epsilon : ℝ) (z : ℂ) : ℝ :=
  -1 / epsilon * (z.re + 1)

/-- The radius the sampler computes for budget `epsilon` and uniform draw
`p` (source line 12). -/
noncomputable def sampled_radius (epsilon p : ℝ) : ℝ :=
  radius_from_lambert epsilon (scipy_lambertw ((p - 1) / Real.exp 1))

/-- `generate_isotropic_laplace_noise_offset` (source lines 7-13), with the
two ambient random draws `theta ∈ [0, 2π)` and `p ∈ [0, 1)` passed
explicitly.  Python raises `ZeroDivisionError` on `-1 / epsilon` when
`epsilon = 0`; otherwise the pair `(r, theta)` is returned. -/
noncomputable def generate_isotropic_laplace_noise_offset
    (epsilon p theta : ℝ) : Except PyError (ℝ × ℝ) :=
  if epsilon = 0 then Except.error PyError.zeroDivisionError
  else Except.ok (sampled_radius epsilon p, theta)

/-- `math.radians` of CPython: degrees to radians. -/
noncomputable def radians (x : ℝ) : ℝ := x * (Real.pi / 180)

/-- `add_privacy_noise_to_geographic_coordinate` (source lines 15-19),
with the sampler's random draws passed through explicitly.  The noise
offset is converted to degrees and added; no clamping, no error checks. -/
noncomputable def add_privacy_noise_to_geographic_coordinate
    (longitude latitude epsilon p theta : ℝ) : Except PyError (ℝ × ℝ) :=
  match generate_isotropic_laplace_noise_offset epsilon p theta with
  | Except.error e => Except.error e
  | Except.ok (noise_distance_m, noise_angle) =>
      Except.ok
        (longitude + (noise_distance_m * Real.cos noise_angle) /
            (111320 * Real.cos (radians latitude)),
         latitude + (noise_distance_m * Real.sin noise_angle) / 111320)

/-- The specification's `perturb(coordinate, offset) -> coordinate`
operation (§4.2, §6): apply an already-sampled polar offset `(r, theta)`
to one coordinate, written exactly as the spec's formulas
`Δlat = (r·sin θ)/111320` and `Δlon = (r·cos θ)/(111320·cos(lat_in_radians))`. -/
noncomputable def perturb (longitude latitude r theta : ℝ) : ℝ × ℝ :=
  (longitude + (r * Real.cos theta) / (111320 * Real.cos (radians latitude)),
   latitude + (r * Real.sin theta) / 111320)

/-- The ε-independent radial scale `c(p) = -(W₋₁((p-1)/e) + 1)`. -/
noncomputable def planar_laplace_scale (p : ℝ) : ℝ :=
  -(lambertWm1 ((p - 1) / Real.exp 1) + 1)

/-- The per-file perturbation loop of `process_privacy_dataset` (source
lines 63-65): each coordinate is perturbed in order, with the ambient
randomness made explicit by pairing every coordinate with the pair of
draws `(p, theta)` its sampler call consumes.  A raised exception aborts
the loop, as in Python. -/
noncomputable def process_privacy_dataset_loop (epsilon : ℝ) :
    List ((ℝ × ℝ) × (ℝ × ℝ)) → Except PyError (List (ℝ × ℝ))
  | [] => Except.ok []
  | (coord, draw) :: rest =>
    match add_privacy_noise_to_geographic_coordinate
        coord.1 coord.2 epsilon draw.1 draw.2 with
    | Except.error e => Except.error e
    | Except.ok pc =>
      match process_privacy_dataset_loop epsilon rest with
      | Except.error e => Except.error e
      | Except.ok pcs => Except.ok (pc :: pcs)

/-- The rows emitted by `write_geographic_coordinates_with_original`
(source lines 48-53): originals zipped with perturbed values, each row
`(orig_lat, orig_lon, pert_lat, pert_lon)`. -/
def write_geographic_coordinates_with_original
    (original_coords perturbed_coords : List (ℝ × ℝ)) :
    List (ℝ × ℝ × ℝ × ℝ) :=
  (original_coords.zip perturbed_coords).map
    (fun x => (x.1.2, x.1.1, x.2.2, x.2.1))

/-- Python's `str.split(",")` on a line modelled as its list of
characters: split at every comma, keeping empty parts (source line 26). -/
def split_on_comma : List Char → List (List Char)
  | [] => [[]]
  | c :: rest =>
    match split_on_comma rest with
    | [] => [[]]
    | first :: others =>
      if c = ',' then [] :: first :: others else (c :: first) :: others

/-- Python's `str.strip()`: remove leading and trailing whitespace. -/
def strip (l : List Char) : List Char :=
  ((l.dropWhile Char.isWhitespace).reverse.dropWhile Char.isWhitespace).reverse

/-- One iteration of the line loop of `read_geographic_coordinates`
(source lines 25-39): split the line on commas, skip it unless there are
exactly two parts, both non-empty after stripping, convert both stripped
parts with Python's `float` — modelled by the parameter `pf`, `none`
standing for a `ValueError` — and skip the coordinate unless
`-180 ≤ lon ≤ 180` and `-90 ≤ lat ≤ 90` (source line 34: strict
comparisons, so the bounds are inclusive). -/
noncomputable def parse_coordinate_line (pf : List Char → Option ℝ)
    (line : List Char) : Option (ℝ × ℝ) :=
  match split_on_comma line with
  | [a, b] =>
    if strip a = [] ∨ strip b = [] then none
    else
      match pf (strip a), pf (strip b) with
      | some lon, some lat =>
        if lon < -180 ∨ lon > 180 ∨ lat < -90 ∨ lat > 90 then none
        else some (lon, lat)
      | _, _ => none
  | _ => none

/-- `read_geographic_coordinates` (source lines 21-40) on the list of
lines of the file: the valid coordinates in file order, with malformed or
out-of-range lines dropped. -/
noncomputable def read_geographic_coordinates (pf : List Char → Option ℝ)
    (lines : List (List Char)) : List (ℝ × ℝ) :=
  lines.filterMap (parse_coordinate_line pf)

/-- A tiny concrete stand-in for Python's `float`, mapping the numeral
character lists `0` and `90` to the reals `0` and `90`. -/
noncomputable def pf_example : List Char → Option ℝ := fun s =>
  if s = ['9', '0'] then some 90 else if s = ['0'] then some 0 else none

/-- `exp t ≥ t^2 / 4` for `t ≥ 0`; elementary bound used to locate the
Lambert W branch point by the intermediate value theorem. -/
lemma sq_div_four_le_exp {t : ℝ} (ht : 0 ≤ t) : t ^ 2 / 4 ≤ Real.exp t := by
  have h1 : t / 2 ≤ Real.exp (t / 2) := by
    have := Real.add_one_le_exp (t / 2)
    linarith
  have h2 : (t / 2) * (t / 2) ≤ Real.exp (t / 2) * Real.exp (t / 2) := by
    have ht2 : 0 ≤ t / 2 := by linarith
    exact mul_le_mul h1 h1 ht2 (le_of_lt (Real.exp_pos _))
  calc t ^ 2 / 4 = (t / 2) * (t / 2) := by ring
    _ ≤ Real.exp (t / 2) * Real.exp (t / 2) := h2
    _ = Real.exp t := by rw [← Real.exp_add]; norm_num

/-- For every `x ∈ [-1/e, 0)` there is a `w ≤ -1` with `w * exp w = x`:
the branch `k = -1` of Lambert W is defined on the domain the sampler
feeds it. -/
lemma exists_lambertWm1 {x : ℝ} (h1 : -(Real.exp 1)⁻¹ ≤ x) (h2 : x < 0) :
    ∃ w, w ≤ -1 ∧ w * Real.exp w = x := by
  set t : ℝ := max 1 (4 / (-x)) with ht_def
  have hx : 0 < -x := by linarith
  have ht1 : (1 : ℝ) ≤ t := le_max_left _ _
  have ht0 : (0 : ℝ) < t := lt_of_lt_of_le one_pos ht1
  have htx : 4 / (-x) ≤ t := le_max_right _ _
  have hfab : -t ≤ -1 := by linarith
  have hcont : ContinuousOn (fun w : ℝ => w * Real.exp w) (Set.Icc (-t) (-1)) :=
    (continuous_id.mul Real.continuous_exp).continuousOn
  have hfb : (-1 : ℝ) * Real.exp (-1) = -(Real.exp 1)⁻¹ := by
    rw [Real.exp_neg]; ring
  have hfa : x ≤ (-t) * Real.exp (-t) := by
    have hexp : t ^ 2 / 4 ≤ Real.exp t := sq_div_four_le_exp (le_of_lt ht0)
    have hexp_pos : (0 : ℝ) < Real.exp t := Real.exp_pos t
    have hkey : t * Real.exp (-t) ≤ -x := by
      have htsq : 0 < t ^ 2 / 4 := by positivity
      have h4t : 4 / t ≤ -x := by
        rw [div_le_iff₀ ht0]
        have := (div_le_iff₀ hx).mp htx
        linarith [mul_comm (-x) t]
      have hinv : (Real.exp t)⁻¹ ≤ (t ^ 2 / 4)⁻¹ :=
        inv_anti₀ htsq hexp
      have hstep : t * Real.exp (-t) ≤ t / (t ^ 2 / 4) := by
        calc t * Real.exp (-t) = t * (Real.exp t)⁻¹ := by rw [Real.exp_neg]
          _ ≤ t * (t ^ 2 / 4)⁻¹ :=
              mul_le_mul_of_nonneg_left hinv (le_of_lt ht0)
          _ = t / (t ^ 2 / 4) := (div_eq_mul_inv _ _).symm
      have heq : t / (t ^ 2 / 4) = 4 / t := by
        field_simp
        ring
      calc t * Real.exp (-t) ≤ t / (t ^ 2 / 4) := hstep
        _ = 4 / t := heq
        _ ≤ -x := h4t
    nlinarith
  have hmem : x ∈ Set.Icc ((-1 : ℝ) * Real.exp (-1)) ((-t) * Real.exp (-t)) := by
    constructor
    · rw [hfb]; exact h1
    · exact hfa
  have := intermediate_value_Icc' hfab hcont hmem
  obtain ⟨w, hw, hfw⟩ := this
  exact ⟨w, hw.2, hfw⟩

/-- On `[-1/e, 0)` the value of `lambertWm1` satisfies the defining
branch property: it is `≤ -1` and inverts `w * exp w`. -/
lemma lambertWm1_prop {x : ℝ} (h1 : -(Real.exp 1)⁻¹ ≤ x) (h2 : x < 0) :
    lambertWm1 x ≤ -1 ∧ lambertWm1 x * Real.exp (lambertWm1 x) = x := by
  have hex := exists_lambertWm1 h1 h2
  unfold lambertWm1
  rw [dif_pos hex]
  exact Classical.choose_spec hex

lemma generate_ok {epsilon : ℝ} (hε : epsilon ≠ 0) (p theta : ℝ) :
    generate_isotropic_laplace_noise_offset epsilon p theta =
      Except.ok (sampled_radius epsilon p, theta) := by
  unfold generate_isotropic_laplace_noise_offset
  rw [if_neg hε]

lemma add_privacy_eq {epsilon : ℝ} (hε : epsilon ≠ 0)
    (longitude latitude p theta : ℝ) :
    add_privacy_noise_to_geographic_coordinate longitude latitude epsilon p theta =
      Except.ok (perturb longitude latitude (sampled_radius epsilon p) theta) := by
  unfold add_privacy_noise_to_geographic_coordinate
  rw [generate_ok hε]
  rfl

lemma lambert_arg_mem {p : ℝ} (hp0 : 0 ≤ p) (hp1 : p < 1) :
    -(Real.exp 1)⁻¹ ≤ (p - 1) / Real.exp 1 ∧ (p - 1) / Real.exp 1 < 0 := by
  have he : (0 : ℝ) < Real.exp 1 := Real.exp_pos 1
  constructor
  · have hneg : -(Real.exp 1)⁻¹ = (-1) / Real.exp 1 := by
      rw [neg_div, one_div]
    rw [hneg]
    exact (div_le_div_iff_of_pos_right he).mpr (by linarith)
  · exact div_neg_of_neg_of_pos (by linarith) he

lemma sampled_radius_eq (epsilon p : ℝ) :
    sampled_radius epsilon p =
      -1 / epsilon * (lambertWm1 ((p - 1) / Real.exp 1) + 1) := by
  unfold sampled_radius radius_from_lambert scipy_lambertw
  rw [Complex.ofReal_re]

lemma sampled_radius_nonneg {epsilon p : ℝ} (hε : 0 < epsilon)
    (hp0 : 0 ≤ p) (hp1 : p < 1) : 0 ≤ sampled_radius epsilon p := by
  obtain ⟨hd1, hd2⟩ := lambert_arg_mem hp0 hp1
  have hW : lambertWm1 ((p - 1) / Real.exp 1) ≤ -1 := (lambertWm1_prop hd1 hd2).1
  rw [sampled_radius_eq]
  have h1 : lambertWm1 ((p - 1) / Real.exp 1) + 1 ≤ 0 := by linarith
  have h2 : -1 / epsilon ≤ 0 :=
    le_of_lt (div_neg_of_neg_of_pos (by norm_num) hε)
  have := mul_nonneg (neg_nonneg.mpr h2) (neg_nonneg.mpr h1)
  nlinarith

/-- C1: for every budget `ε ≠ 0` and uniform draws `p ∈ [0,1)`, `θ`, the
sampler returns exactly `r = -(1/ε)·(W + 1)` with
`W = lambertWm1((p-1)/e)`, and that `W` is the branch `k = -1` value:
`W ≤ -1` and `W·exp W = (p-1)/e`.  The angle `θ` is returned unchanged,
so (the statement holding for every `ε`) it does not depend on `ε`. -/
theorem generate_offset_uses_lambert_inversion (epsilon p theta : ℝ)
    (hε : epsilon ≠ 0) (hp0 : 0 ≤ p) (hp1 : p < 1) :
    generate_isotropic_laplace_noise_offset epsilon p theta =
      Except.ok (-(1 / epsilon) * (lambertWm1 ((p - 1) / Real.exp 1) + 1), theta) ∧
    lambertWm1 ((p - 1) / Real.exp 1) ≤ -1 ∧
    lambertWm1 ((p - 1) / Real.exp 1) * Real.exp (lambertWm1 ((p - 1) / Real.exp 1)) =
      (p - 1) / Real.exp 1 := by
  obtain ⟨hd1, hd2⟩ := lambert_arg_mem hp0 hp1
  obtain ⟨hW1, hW2⟩ := lambertWm1_prop hd1 hd2
  refine ⟨?_, hW1, hW2⟩
  rw [generate_ok hε, sampled_radius_eq]
  norm_num
  ring

/-- Witness for C1 at `ε = 1`, `p = 1/2`, `θ = 0`. -/
theorem generate_offset_uses_lambert_inversion_witness :
    generate_isotropic_laplace_noise_offset 1 (1/2) 0 =
      Except.ok (-(1 / 1) * (lambertWm1 ((1/2 - 1) / Real.exp 1) + 1), 0) ∧
    lambertWm1 ((1/2 - 1) / Real.exp 1) ≤ -1 ∧
    lambertWm1 ((1/2 - 1) / Real.exp 1) * Real.exp (lambertWm1 ((1/2 - 1) / Real.exp 1)) =
      (1/2 - 1) / Real.exp 1 :=
  generate_offset_uses_lambert_inversion 1 (1/2) 0 (by norm_num) (by norm_num)
    (by norm_num)

/-- C2: for every `ε > 0`, `p ∈ (0,1)` and angle draw `θ ∈ [0, 2π)`, the
sampler returns `(r, θ)` with `r ≥ 0` and `θ ∈ [0, 2π)`; `r` is a real
number (the key step is `lambertWm1((p-1)/e) ≤ -1`, so
`-(1/ε)(W+1) ≥ 0`). -/
theorem sample_offset_valid (epsilon p theta : ℝ) (hε : 0 < epsilon)
    (hp0 : 0 < p) (hp1 : p < 1) (hθ0 : 0 ≤ theta) (hθ2 : theta < 2 * Real.pi) :
    ∃ r : ℝ, generate_isotropic_laplace_noise_offset epsilon p theta =
        Except.ok (r, theta) ∧ 0 ≤ r ∧ 0 ≤ theta ∧ theta < 2 * Real.pi :=
  ⟨sampled_radius epsilon p, generate_ok (ne_of_gt hε) p theta,
    sampled_radius_nonneg hε (le_of_lt hp0) hp1, hθ0, hθ2⟩

/-- Witness for C2 at `ε = 1`, `p = 1/2`, `θ = 1`. -/
theorem sample_offset_valid_witness :
    ∃ r : ℝ, generate_isotropic_laplace_noise_offset 1 (1/2) 1 =
        Except.ok (r, 1) ∧ 0 ≤ r ∧ (0:ℝ) ≤ 1 ∧ (1:ℝ) < 2 * Real.pi :=
  sample_offset_valid 1 (1/2) 1 (by norm_num) (by norm_num) (by norm_num)
    (by norm_num) (by nlinarith [Real.pi_gt_three])

/-- C3: the perturbed coordinate is `(lon + Δlon, lat + Δlat)` with
`Δlat = (r·sin θ)/111320` and `Δlon = (r·cos θ)/(111320·cos(lat·π/180))`,
both for the spec-level `perturb` on an arbitrary offset and for the
source's `add_privacy_noise_to_geographic_coordinate` on the sampled
offset; and no clamping is applied: at `(lon, lat) = (180, 0)` with
offset `(111320, 0)` the returned longitude is `181`, outside the valid
range, returned as-is. -/
theorem add_noise_formula_and_no_clamping :
    (∀ longitude latitude r theta : ℝ,
      perturb longitude latitude r theta =
        (longitude + (r * Real.cos theta) /
            (111320 * Real.cos (latitude * (Real.pi / 180))),
         latitude + (r * Real.sin theta) / 111320)) ∧
    (∀ longitude latitude epsilon p theta : ℝ, epsilon ≠ 0 →
      add_privacy_noise_to_geographic_coordinate longitude latitude epsilon p theta =
        Except.ok
          (longitude + (sampled_radius epsilon p * Real.cos theta) /
              (111320 * Real.cos (latitude * (Real.pi / 180))),
           latitude + (sampled_radius epsilon p * Real.sin theta) / 111320)) ∧
    perturb 180 0 111320 0 = (181, 0) := by
  have hform : ∀ longitude latitude r theta : ℝ,
      perturb longitude latitude r theta =
        (longitude + (r * Real.cos theta) /
            (111320 * Real.cos (latitude * (Real.pi / 180))),
         latitude + (r * Real.sin theta) / 111320) := by
    intro longitude latitude r theta
    unfold perturb radians
    rfl
  refine ⟨hform, ?_, ?_⟩
  · intro longitude latitude epsilon p theta hε
    rw [add_privacy_eq hε, hform]
  · rw [hform]
    norm_num

/-- Witness for C3 at concrete inputs. -/
theorem add_noise_formula_and_no_clamping_witness :
    perturb 0 0 1 0 =
      (0 + ((1:ℝ) * Real.cos 0) / (111320 * Real.cos (0 * (Real.pi / 180))),
       0 + ((1:ℝ) * Real.sin 0) / 111320) ∧
    add_privacy_noise_to_geographic_coordinate 0 0 1 (1/2) 0 =
      Except.ok
        (0 + (sampled_radius 1 (1/2) * Real.cos 0) /
            (111320 * Real.cos (0 * (Real.pi / 180))),
         0 + (sampled_radius 1 (1/2) * Real.sin 0) / 111320) ∧
    perturb 180 0 111320 0 = (181, 0) :=
  ⟨add_noise_formula_and_no_clamping.1 0 0 1 0,
   add_noise_formula_and_no_clamping.2.1 0 0 1 (1/2) 0 (by norm_num),
   add_noise_formula_and_no_clamping.2.2⟩

/-- C7: `perturb` is deterministic — identical (coordinate, offset) inputs
give identical outputs — and the source's perturbation consumes no hidden
randomness: once the sampler's offset `(r, a)` is fixed, the result is
exactly `perturb` of the coordinate and that offset. -/
theorem perturb_deterministic_no_hidden_randomness :
    (∀ longitude latitude r theta longitude2 latitude2 r2 theta2 : ℝ,
      longitude = longitude2 → latitude = latitude2 → r = r2 → theta = theta2 →
      perturb longitude latitude r theta = perturb longitude2 latitude2 r2 theta2) ∧
    (∀ longitude latitude epsilon p theta r a : ℝ,
      generate_isotropic_laplace_noise_offset epsilon p theta = Except.ok (r, a) →
      add_privacy_noise_to_geographic_coordinate longitude latitude epsilon p theta =
        Except.ok (perturb longitude latitude r a)) := by
  constructor
  · intro longitude latitude r theta longitude2 latitude2 r2 theta2 h1 h2 h3 h4
    rw [h1, h2, h3, h4]
  · intro longitude latitude epsilon p theta r a h
    unfold add_privacy_noise_to_geographic_coordinate
    rw [h]
    rfl

/-- Witness for C7 at concrete inputs. -/
theorem perturb_deterministic_no_hidden_randomness_witness :
    perturb 1 2 3 4 = perturb 1 2 3 4 ∧
    add_privacy_noise_to_geographic_coordinate 0 0 1 (1/2) 0 =
      Except.ok (perturb 0 0 (sampled_radius 1 (1/2)) 0) :=
  ⟨perturb_deterministic_no_hidden_randomness.1 1 2 3 4 1 2 3 4 rfl rfl rfl rfl,
   perturb_deterministic_no_hidden_randomness.2 0 0 1 (1/2) 0
     (sampled_radius 1 (1/2)) 0 (generate_ok (by norm_num) (1/2) 0)⟩

/-- C4 (code bug): the source performs no budget validation.  At
`ε = -1` the sampler raises nothing and returns an offset whose radius is
non-positive; at `ε = 0` it raises the interpreter's `ZeroDivisionError`
from `-1 / epsilon`, not an `InvalidBudget` error (no such error exists
anywhere in the source). -/
theorem invalid_budget_not_raised :
    (∃ v : ℝ × ℝ, generate_isotropic_laplace_noise_offset (-1) (1/2) 0 =
        Except.ok v ∧ v.1 ≤ 0) ∧
    generate_isotropic_laplace_noise_offset 0 (1/2) 0 =
      Except.error PyError.zeroDivisionError := by
  constructor
  · refine ⟨(sampled_radius (-1) (1/2), 0), generate_ok (by norm_num) (1/2) 0, ?_⟩
    obtain ⟨hd1, hd2⟩ := lambert_arg_mem (p := 1/2) (by norm_num) (by norm_num)
    have hW := (lambertWm1_prop hd1 hd2).1
    rw [sampled_radius_eq]
    norm_num
    linarith
  · unfold generate_isotropic_laplace_noise_offset
    rw [if_pos rfl]

/-- C5 (code bug): at latitude exactly `90` the perturbation raises
nothing and returns an ordinary value.  There is no `PolarSingularity`
error anywhere in the source, even though the longitude-delta denominator
`111320 * cos(radians 90)` is exactly `0` in real arithmetic. -/
theorem polar_singularity_not_raised :
    Real.cos (radians 90) = 0 ∧
    ∃ v : ℝ × ℝ, add_privacy_noise_to_geographic_coordinate 0 90 1 (1/2) 0 =
      Except.ok v := by
  constructor
  · unfold radians
    have : (90 : ℝ) * (Real.pi / 180) = Real.pi / 2 := by ring
    rw [this, Real.cos_pi_div_two]
  · exact ⟨perturb 0 90 (sampled_radius 1 (1/2)) 0,
      add_privacy_eq (by norm_num) 0 90 (1/2) 0⟩

/-- C6 (code bug): the radius computation of source line 12 takes the real
part of the Lambert W result unconditionally — a hypothetical evaluation
result `-2 + 5i`, whose imaginary part is far above the `1e-8` tolerance,
is silently truncated to `-2`, giving radius `1` at `ε = 1` — and for
every `ε ≠ 0` the sampler returns normally, so no
`NumericInversionFailure` is ever surfaced to the caller. -/
theorem numeric_inversion_failure_not_surfaced :
    radius_from_lambert 1 ⟨-2, 5⟩ = 1 ∧
    (∀ epsilon p theta : ℝ, epsilon ≠ 0 →
      ∃ v : ℝ × ℝ, generate_isotropic_laplace_noise_offset epsilon p theta =
        Except.ok v) := by
  constructor
  · unfold radius_from_lambert
    norm_num
  · intro epsilon p theta hε
    exact ⟨(sampled_radius epsilon p, theta), generate_ok hε p theta⟩

/-- Witness for C6 at `ε = 1`, `p = 1/2`, `θ = 0`. -/
theorem numeric_inversion_failure_not_surfaced_witness :
    radius_from_lambert 1 ⟨-2, 5⟩ = 1 ∧
    ∃ v : ℝ × ℝ, generate_isotropic_laplace_noise_offset 1 (1/2) 0 =
      Except.ok v :=
  ⟨numeric_inversion_failure_not_surfaced.1,
   numeric_inversion_failure_not_surfaced.2 1 (1/2) 0 (by norm_num)⟩

lemma sampled_radius_eq_scale_div (epsilon p : ℝ) :
    sampled_radius epsilon p = planar_laplace_scale p / epsilon := by
  rw [sampled_radius_eq]
  unfold planar_laplace_scale
  ring

/-- C8: for a fixed draw `p ∈ (0,1)` the sampled radius is exactly
`c(p)/ε` with `c(p) = -(W₋₁((p-1)/e)+1) ≥ 0` independent of `ε`; as
`ε → ∞` the radius tends to `0` and the perturbed coordinate tends to the
original coordinate. -/
theorem radius_inversely_proportional_to_epsilon
    (epsilon p theta longitude latitude : ℝ) (hε : epsilon ≠ 0)
    (hp0 : 0 < p) (hp1 : p < 1) :
    generate_isotropic_laplace_noise_offset epsilon p theta =
      Except.ok (planar_laplace_scale p / epsilon, theta) ∧
    0 ≤ planar_laplace_scale p ∧
    Filter.Tendsto (fun e : ℝ => planar_laplace_scale p / e)
      Filter.atTop (nhds 0) ∧
    Filter.Tendsto
      (fun e : ℝ => perturb longitude latitude (planar_laplace_scale p / e) theta)
      Filter.atTop (nhds (longitude, latitude)) := by
  have hscale : 0 ≤ planar_laplace_scale p := by
    have h := sampled_radius_nonneg one_pos (le_of_lt hp0) hp1
    rwa [sampled_radius_eq_scale_div, div_one] at h
  have hlim : Filter.Tendsto (fun e : ℝ => planar_laplace_scale p / e)
      Filter.atTop (nhds 0) := by
    have h := tendsto_inv_atTop_zero.const_mul (planar_laplace_scale p)
    simpa [div_eq_mul_inv] using h
  refine ⟨?_, hscale, hlim, ?_⟩
  · rw [generate_ok hε, sampled_radius_eq_scale_div]
  · have hcont : Continuous (fun r : ℝ => perturb longitude latitude r theta) := by
      unfold perturb radians
      continuity
    have h0 : perturb longitude latitude 0 theta = (longitude, latitude) := by
      unfold perturb
      simp
    have h4 := (hcont.tendsto 0).comp hlim
    rw [h0] at h4
    exact h4

/-- Witness for C8 at `ε = 1`, `p = 1/2`, `θ = 0`, coordinate `(0, 0)`. -/
theorem radius_inversely_proportional_to_epsilon_witness :
    generate_isotropic_laplace_noise_offset 1 (1/2) 0 =
      Except.ok (planar_laplace_scale (1/2) / 1, 0) ∧
    0 ≤ planar_laplace_scale (1/2) ∧
    Filter.Tendsto (fun e : ℝ => planar_laplace_scale (1/2) / e)
      Filter.atTop (nhds 0) ∧
    Filter.Tendsto
      (fun e : ℝ => perturb 0 0 (planar_laplace_scale (1/2) / e) 0)
      Filter.atTop (nhds (0, 0)) :=
  radius_inversely_proportional_to_epsilon 1 (1/2) 0 0 0 (by norm_num)
    (by norm_num) (by norm_num)

lemma process_loop_ok {epsilon : ℝ} (hε : epsilon ≠ 0) :
    ∀ l : List ((ℝ × ℝ) × (ℝ × ℝ)),
      process_privacy_dataset_loop epsilon l =
        Except.ok (l.map (fun cd =>
          perturb cd.1.1 cd.1.2 (sampled_radius epsilon cd.2.1) cd.2.2))
  | [] => rfl
  | (coord, draw) :: rest => by
    rw [process_privacy_dataset_loop, add_privacy_eq hε,
      process_loop_ok hε rest, List.map_cons]

/-- C9: the batch transform is order-preserving and one-to-one: for
`ε ≠ 0` and one draw pair per coordinate, the loop succeeds with exactly
one output per input, the `i`-th output is the perturbation of the `i`-th
input with the `i`-th draws, and the with-original writer pairs the `i`-th
original with the `i`-th perturbed value on every row. -/
theorem process_batch_order_preserving (epsilon : ℝ)
    (coords draws : List (ℝ × ℝ)) (hε : epsilon ≠ 0)
    (hlen : draws.length = coords.length) :
    ∃ out : List (ℝ × ℝ),
      process_privacy_dataset_loop epsilon (coords.zip draws) = Except.ok out ∧
      out.length = coords.length ∧
      (∀ i : ℕ, ∀ hc : i < coords.length, ∀ hd : i < draws.length,
        ∀ ho : i < out.length,
        Except.ok out[i] =
          add_privacy_noise_to_geographic_coordinate
            (coords[i]).1 (coords[i]).2 epsilon (draws[i]).1 (draws[i]).2) ∧
      (write_geographic_coordinates_with_original coords out).length =
        coords.length ∧
      (∀ i : ℕ, ∀ hc : i < coords.length, ∀ ho : i < out.length,
        ∀ hw : i < (write_geographic_coordinates_with_original coords out).length,
        (write_geographic_coordinates_with_original coords out)[i] =
          ((coords[i]).2, (coords[i]).1, (out[i]).2, (out[i]).1)) := by
  refine ⟨(coords.zip draws).map (fun cd =>
      perturb cd.1.1 cd.1.2 (sampled_radius epsilon cd.2.1) cd.2.2),
    process_loop_ok hε _, ?_, ?_, ?_, ?_⟩
  · simp [List.length_zip, hlen]
  · intro i hc hd ho
    simp only [List.getElem_map, List.getElem_zip]
    rw [add_privacy_eq hε]
  · simp [write_geographic_coordinates_with_original, List.length_zip, hlen]
  · intro i hc ho hw
    simp only [write_geographic_coordinates_with_original, List.getElem_map,
      List.getElem_zip]

/-- Witness for C9 on a concrete two-element batch. -/
theorem process_batch_order_preserving_witness :
    ∃ out : List (ℝ × ℝ),
      process_privacy_dataset_loop 1
        ([((1:ℝ), (2:ℝ)), ((3:ℝ), (4:ℝ))].zip
          [((1/2 : ℝ), (0:ℝ)), ((1/2 : ℝ), (1:ℝ))]) = Except.ok out ∧
      out.length = [((1:ℝ), (2:ℝ)), ((3:ℝ), (4:ℝ))].length ∧
      (∀ i : ℕ, ∀ hc : i < [((1:ℝ), (2:ℝ)), ((3:ℝ), (4:ℝ))].length,
        ∀ hd : i < [((1/2 : ℝ), (0:ℝ)), ((1/2 : ℝ), (1:ℝ))].length,
        ∀ ho : i < out.length,
        Except.ok out[i] =
          add_privacy_noise_to_geographic_coordinate
            ([((1:ℝ), (2:ℝ)), ((3:ℝ), (4:ℝ))][i]).1
            ([((1:ℝ), (2:ℝ)), ((3:ℝ), (4:ℝ))][i]).2 1
            ([((1/2 : ℝ), (0:ℝ)), ((1/2 : ℝ), (1:ℝ))][i]).1
            ([((1/2 : ℝ), (0:ℝ)), ((1/2 : ℝ), (1:ℝ))][i]).2) ∧
      (write_geographic_coordinates_with_original
          [((1:ℝ), (2:ℝ)), ((3:ℝ), (4:ℝ))] out).length =
        [((1:ℝ), (2:ℝ)), ((3:ℝ), (4:ℝ))].length ∧
      (∀ i : ℕ, ∀ hc : i < [((1:ℝ), (2:ℝ)), ((3:ℝ), (4:ℝ))].length,
        ∀ ho : i < out.length,
        ∀ hw : i < (write_geographic_coordinates_with_original
            [((1:ℝ), (2:ℝ)), ((3:ℝ), (4:ℝ))] out).length,
        (write_geographic_coordinates_with_original
            [((1:ℝ), (2:ℝ)), ((3:ℝ), (4:ℝ))] out)[i] =
          (([((1:ℝ), (2:ℝ)), ((3:ℝ), (4:ℝ))][i]).2,
           ([((1:ℝ), (2:ℝ)), ((3:ℝ), (4:ℝ))][i]).1,
           (out[i]).2, (out[i]).1)) :=
  process_batch_order_preserving 1 [((1:ℝ), (2:ℝ)), ((3:ℝ), (4:ℝ))]
    [((1/2 : ℝ), (0:ℝ)), ((1/2 : ℝ), (1:ℝ))] (by norm_num) (by simp)

lemma parse_coordinate_line_bounds {pf : List Char → Option ℝ}
    {line : List Char} {lon lat : ℝ}
    (h : parse_coordinate_line pf line = some (lon, lat)) :
    -180 ≤ lon ∧ lon ≤ 180 ∧ -90 ≤ lat ∧ lat ≤ 90 := by
  unfold parse_coordinate_line at h
  rcases hs : split_on_comma line with _ | ⟨a, _ | ⟨b, _ | _⟩⟩ <;> rw [hs] at h <;>
    simp only [] at h
  · exact absurd h (by simp)
  · exact absurd h (by simp)
  case cons.cons.nil =>
    by_cases he : strip a = [] ∨ strip b = []
    · rw [if_pos he] at h
      exact absurd h (by simp)
    · rw [if_neg he] at h
      rcases ha : pf (strip a) with _ | lon2 <;>
        rcases hb : pf (strip b) with _ | lat2 <;>
        rw [ha, hb] at h <;> simp only [] at h
      · exact absurd h (by simp)
      · exact absurd h (by simp)
      · exact absurd h (by simp)
      · by_cases hr : lon2 < -180 ∨ lon2 > 180 ∨ lat2 < -90 ∨ lat2 > 90
        · rw [if_pos hr] at h
          exact absurd h (by simp)
        · rw [if_neg hr] at h
          push_neg at hr
          obtain ⟨h1, h2, h3, h4⟩ := hr
          have hpair : lon2 = lon ∧ lat2 = lat := by
            have := Option.some_injective _ h
            exact ⟨congrArg Prod.fst this, congrArg Prod.snd this⟩
          obtain ⟨e1, e2⟩ := hpair
          subst e1
          subst e2
          exact ⟨by linarith, by linarith, by linarith, by linarith⟩
  · exact absurd h (by simp)

lemma parse_coordinate_line_keeps {pf : List Char → Option ℝ}
    {line a b : List Char} {lon lat : ℝ}
    (hs : split_on_comma line = [a, b])
    (ha : pf (strip a) = some lon) (hb : pf (strip b) = some lat)
    (hae : strip a ≠ []) (hbe : strip b ≠ [])
    (h1 : -180 ≤ lon) (h2 : lon ≤ 180) (h3 : -90 ≤ lat) (h4 : lat ≤ 90) :
    parse_coordinate_line pf line = some (lon, lat) := by
  unfold parse_coordinate_line
  rw [hs]
  simp only []
  rw [if_neg (by tauto), ha, hb]
  show (if lon < -180 ∨ lon > 180 ∨ lat < -90 ∨ lat > 90 then none
    else some (lon, lat)) = some (lon, lat)
  rw [if_neg (by push_neg; exact ⟨by linarith, by linarith, by linarith, by linarith⟩)]

lemma parse_coordinate_line_drops {pf : List Char → Option ℝ}
    {line a b : List Char} {lon lat : ℝ}
    (hs : split_on_comma line = [a, b])
    (ha : pf (strip a) = some lon) (hb : pf (strip b) = some lat)
    (hr : lon < -180 ∨ lon > 180 ∨ lat < -90 ∨ lat > 90) :
    parse_coordinate_line pf line = none := by
  unfold parse_coordinate_line
  rw [hs]
  simp only []
  by_cases he : strip a = [] ∨ strip b = []
  · rw [if_pos he]
  · rw [if_neg he, ha, hb]
    show (if lon < -180 ∨ lon > 180 ∨ lat < -90 ∨ lat > 90 then none
      else some (lon, lat)) = none
    rw [if_pos hr]

lemma parse_coordinate_line_malformed {pf : List Char → Option ℝ}
    {line : List Char} (h : ∀ a b : List Char, split_on_comma line ≠ [a, b]) :
    parse_coordinate_line pf line = none := by
  unfold parse_coordinate_line
  rcases hs : split_on_comma line with _ | ⟨a, _ | ⟨b, _ | _⟩⟩
  · rfl
  · rfl
  case cons.cons.nil => exact absurd hs (h a b)
  · rfl

/-- C10: every coordinate returned by the reader satisfies
`-180 ≤ lon ≤ 180` and `-90 ≤ lat ≤ 90` with the bounds inclusive; a line
whose parsed values are within those inclusive bounds (so also latitude
exactly `90` or `-90`, longitude exactly `±180`) is kept in the returned
list, to be forwarded to the perturbation loop; a line whose parsed
values are strictly out of range, or which does not split into exactly
two parts, is dropped. -/
theorem read_coordinates_validation (pf : List Char → Option ℝ)
    (lines : List (List Char)) :
    (∀ lon lat : ℝ, (lon, lat) ∈ read_geographic_coordinates pf lines →
      -180 ≤ lon ∧ lon ≤ 180 ∧ -90 ≤ lat ∧ lat ≤ 90) ∧
    (∀ line a b : List Char, ∀ lon lat : ℝ, line ∈ lines →
      split_on_comma line = [a, b] →
      pf (strip a) = some lon → pf (strip b) = some lat →
      strip a ≠ [] → strip b ≠ [] →
      -180 ≤ lon → lon ≤ 180 → -90 ≤ lat → lat ≤ 90 →
      (lon, lat) ∈ read_geographic_coordinates pf lines) ∧
    (∀ line a b : List Char, ∀ lon lat : ℝ,
      split_on_comma line = [a, b] →
      pf (strip a) = some lon → pf (strip b) = some lat →
      (lon < -180 ∨ lon > 180 ∨ lat < -90 ∨ lat > 90) →
      parse_coordinate_line pf line = none) ∧
    (∀ line : List Char, (∀ a b : List Char, split_on_comma line ≠ [a, b]) →
      parse_coordinate_line pf line = none) := by
  refine ⟨?_, ?_, ?_, ?_⟩
  · intro lon lat h
    obtain ⟨line, _, hp⟩ := List.mem_filterMap.mp h
    exact parse_coordinate_line_bounds hp
  · intro line a b lon lat hmem hs ha hb hae hbe h1 h2 h3 h4
    exact List.mem_filterMap.mpr
      ⟨line, hmem, parse_coordinate_line_keeps hs ha hb hae hbe h1 h2 h3 h4⟩
  · intro line a b lon lat hs ha hb hr
    exact parse_coordinate_line_drops hs ha hb hr
  · intro line h
    exact parse_coordinate_line_malformed h

/-- Witness for C10: the single line `0,90` — latitude exactly `90` —
passes validation and appears in the reader's output. -/
theorem read_coordinates_validation_witness :
    ((0 : ℝ), (90 : ℝ)) ∈
      read_geographic_coordinates pf_example [['0', ',', '9', '0']] :=
  (read_coordinates_validation pf_example [['0', ',', '9', '0']]).2.1
    ['0', ',', '9', '0'] ['0'] ['9', '0'] 0 90 (by simp) (by decide)
    (by rfl) (by rfl) (by decide) (by decide) (by norm_num) (by norm_num)
    (by norm_num) (by norm_num)

end PlanarLaplace
